import Mathlib

/-!
Verification of the mod identity model and integration engine of mint-SZ.

The Rust sources are shallowly embedded:
* `mint_lib/src/mod_info.rs` — mod identity and resolution value types,
  `satisfies_dependency`, `get_resolvable_url_or_name`, and the `Meta`
  in-game metadata record;
* `mint_lib/src/lib.rs` — `DBSZInstallation` and its derived paths;
* `src/integrate.rs` — `uninstall`, `copy_dir_all`, `integrate`.

Filesystem state is modelled as a finite directory tree; paths are lists of
components.  Rust panics (e.g. `Option::unwrap` on `None`) are modelled as an
explicit `panics` outcome, and the potentially non-terminating recursive
directory copy is fuelled, with fuel exhaustion modelled as a `diverge`
outcome.
-/

namespace MintSZ

/-- Models Rust `str::starts_with`: `pre` is a character-prefix of `s`. -/
def str_starts_with (s pre : String) : Bool :=
  pre.data.isPrefixOf s.data

/-- Embeds `ModSpecification` from `mint_lib/src/mod_info.rs`. -/
structure ModSpecification where
  url : String
deriving DecidableEq, Repr

/-- Embeds `ModSpecification::new`. -/
def ModSpecification.new (url : String) : ModSpecification :=
  { url := url }

/-- Embeds `ModSpecification::satisfies_dependency`:
`self.url.starts_with(&other.url) || other.url.starts_with(&self.url)`. -/
def ModSpecification.satisfies_dependency (self other : ModSpecification) : Bool :=
  str_starts_with self.url other.url || str_starts_with other.url self.url

/-- Embeds `ModIdentifier` (a tuple struct; field `val` models `.0`). -/
structure ModIdentifier where
  val : String
deriving DecidableEq, Repr

/-- Embeds `ResolvableStatus` from `mint_lib/src/mod_info.rs`. -/
inductive ResolvableStatus where
  | Unresolvable (reason : String)
  | Resolvable
deriving DecidableEq, Repr

/-- Embeds `ModResolution`. -/
structure ModResolution where
  url : ModIdentifier
  status : ResolvableStatus
deriving DecidableEq, Repr

/-- Embeds `ModResolution::resolvable`. -/
def ModResolution.resolvable (url : ModIdentifier) : ModResolution :=
  { url := url, status := ResolvableStatus.Resolvable }

/-- Embeds `ModResolution::unresolvable`. -/
def ModResolution.unresolvable (url : ModIdentifier) (name : String) : ModResolution :=
  { url := url, status := ResolvableStatus.Unresolvable name }

/-- Embeds `ModResolution::get_resolvable_url_or_name`. -/
def ModResolution.get_resolvable_url_or_name (self : ModResolution) : String :=
  match self.status with
  | ResolvableStatus.Resolvable => self.url.val
  | ResolvableStatus.Unresolvable name => name

/-- Embeds `ModType` from `mint_lib/src/mod_info.rs`. -/
inductive ModType where
  | ModPlugin
  | Pak
deriving DecidableEq, Repr

/-- Embeds `ModInfo` (the `provider: &'static str` field is a plain string). -/
structure ModInfo where
  provider : String
  name : String
  spec : ModSpecification
  versions : List ModSpecification
  resolution : ModResolution
  suggested_require : Bool
  suggested_dependencies : List ModSpecification
  mod_type : ModType
deriving DecidableEq, Repr

/-- Embeds `RequiredStatus`. -/
inductive RequiredStatus where
  | RequiredByAll
  | Optional
deriving DecidableEq, Repr

/-- Embeds `ModResponse`. -/
inductive ModResponse where
  | Redirect (spec : ModSpecification)
  | Resolve (info : ModInfo)

end MintSZ

namespace MintSZ

/-! The in-game metadata record (`Meta` and friends) and its serialization
round trip. -/

/-- Embeds `SemverVersion`. -/
structure SemverVersion where
  major : Nat
  minor : Nat
  patch : Nat
deriving DecidableEq, Repr

/-- Embeds `MetaMod`. -/
structure MetaMod where
  name : String
  version : String
  url : String
  author : String
  required : Bool
deriving DecidableEq, Repr

/-- Embeds `MetaConfig`. -/
structure MetaConfig where
  disable_fix_exploding_gas : Bool
deriving DecidableEq, Repr

/-- Embeds `Meta`. -/
structure Meta where
  version : SemverVersion
  mods : List MetaMod
  config : MetaConfig
deriving DecidableEq, Repr

/-- A structured serialized value: the generic data model a serde data format
produces from the derived `Serialize` impls. -/
inductive JValue where
  | jnum (n : Nat)
  | jstr (s : String)
  | jbool (b : Bool)
  | jarr (items : List JValue)
  | jobj (fields : List (String × JValue))

/-- Field lookup in a serialized object. -/
def jget : List (String × JValue) → String → Option JValue
  | [], _ => none
  | (k, v) :: rest, n => if k = n then some v else jget rest n

/-- Modelled from the spec: the derived `Serialize` impl for `SemverVersion`
(the concrete serde data format is not part of the sources). Per spec §6 the
record is an object with fields `major`, `minor`, `patch`. -/
def serialize_semver (v : SemverVersion) : JValue :=
  JValue.jobj [("major", JValue.jnum v.major), ("minor", JValue.jnum v.minor),
    ("patch", JValue.jnum v.patch)]

/-- Modelled from the spec: the derived `Deserialize` impl for `SemverVersion`. -/
def deserialize_semver (j : JValue) : Option SemverVersion :=
  match j with
  | JValue.jobj fields =>
    match jget fields "major", jget fields "minor", jget fields "patch" with
    | some (JValue.jnum ma), some (JValue.jnum mi), some (JValue.jnum pa) =>
      some { major := ma, minor := mi, patch := pa }
    | _, _, _ => none
  | _ => none

/-- Modelled from the spec: the derived `Serialize` impl for `MetaMod`; fields
`name`, `version`, `url`, `author` (strings) and `required` (boolean). -/
def serialize_meta_mod (m : MetaMod) : JValue :=
  JValue.jobj [("name", JValue.jstr m.name), ("version", JValue.jstr m.version),
    ("url", JValue.jstr m.url), ("author", JValue.jstr m.author),
    ("required", JValue.jbool m.required)]

/-- Modelled from the spec: the derived `Deserialize` impl for `MetaMod`. -/
def deserialize_meta_mod (j : JValue) : Option MetaMod :=
  match j with
  | JValue.jobj fields =>
    match jget fields "name", jget fields "version", jget fields "url",
        jget fields "author", jget fields "required" with
    | some (JValue.jstr n), some (JValue.jstr v), some (JValue.jstr u),
        some (JValue.jstr a), some (JValue.jbool r) =>
      some { name := n, version := v, url := u, author := a, required := r }
    | _, _, _, _, _ => none
  | _ => none

/-- Modelled from the spec: the derived `Serialize` impl for `MetaConfig`;
field `disable_fix_exploding_gas` (boolean). -/
def serialize_meta_config (c : MetaConfig) : JValue :=
  JValue.jobj [("disable_fix_exploding_gas", JValue.jbool c.disable_fix_exploding_gas)]

/-- Modelled from the spec: the derived `Deserialize` impl for `MetaConfig`. -/
def deserialize_meta_config (j : JValue) : Option MetaConfig :=
  match j with
  | JValue.jobj fields =>
    match jget fields "disable_fix_exploding_gas" with
    | some (JValue.jbool b) => some { disable_fix_exploding_gas := b }
    | _ => none
  | _ => none

/-- Deserializes an ordered list of serialized `MetaMod`s. -/
def deserialize_mods : List JValue → Option (List MetaMod)
  | [] => some []
  | j :: rest =>
    match deserialize_meta_mod j with
    | none => none
    | some m =>
      match deserialize_mods rest with
      | none => none
      | some ms => some (m :: ms)

/-- Modelled from the spec: the derived `Serialize` impl for `Meta`; top-level
object with fields `version`, `mods` (ordered list), `config`. -/
def serialize_meta (m : Meta) : JValue :=
  JValue.jobj [("version", serialize_semver m.version),
    ("mods", JValue.jarr (m.mods.map serialize_meta_mod)),
    ("config", serialize_meta_config m.config)]

/-- Modelled from the spec: the derived `Deserialize` impl for `Meta`. -/
def deserialize_meta (j : JValue) : Option Meta :=
  match j with
  | JValue.jobj fields =>
    match jget fields "version", jget fields "mods", jget fields "config" with
    | some jv, some (JValue.jarr jmods), some jc =>
      match deserialize_semver jv, deserialize_mods jmods, deserialize_meta_config jc with
      | some v, some ms, some c => some { version := v, mods := ms, config := c }
      | _, _, _ => none
    | _, _, _ => none
  | _ => none

/-! The filesystem model: a path is a list of components, the filesystem is a
finite directory tree.  `std::io::Error` values are modelled by their
`ErrorKind`, with every kind other than `NotFound` collapsed to `other`. -/

/-- A filesystem path, as its list of components. -/
abbrev Path := List String

/-- Models `std::path::Path::parent`: drops the last component; `none` for an
empty path (or a bare root). -/
def Path.parent (p : Path) : Option Path :=
  match p with
  | [] => none
  | _ :: _ => some p.dropLast

/-- A filesystem subtree: a regular file with contents, or a directory with a
list of named entries. -/
inductive FsTree where
  | file (data : Nat)
  | dir (entries : List (String × FsTree))

/-- Models `std::fs::FileType::is_dir` for a directory entry. -/
def FsTree.isDir : FsTree → Bool
  | FsTree.file _ => false
  | FsTree.dir _ => true

/-- Looks a name up in a directory entry list (first binding wins). -/
def getEntry : List (String × FsTree) → String → Option FsTree
  | [], _ => none
  | (k, t) :: rest, n => if k = n then some t else getEntry rest n

/-- Replaces the first binding of a name in a directory entry list, appending
a new binding when the name is absent. -/
def setEntry : List (String × FsTree) → String → FsTree → List (String × FsTree)
  | [], n, t => [(n, t)]
  | (k, u) :: rest, n, t => if k = n then (n, t) :: rest else (k, u) :: setEntry rest n t

/-- Removes all bindings of a name from a directory entry list. -/
def eraseEntry (es : List (String × FsTree)) (n : String) : List (String × FsTree) :=
  es.filter fun e => e.1 != n

/-- Rewrites the bindings of a name in a directory entry list with a function. -/
def mapEntry (es : List (String × FsTree)) (n : String) (f : FsTree → FsTree) :
    List (String × FsTree) :=
  es.map fun e => if e.1 = n then (e.1, f e.2) else e

/-- Resolves a path in a filesystem tree to the subtree it denotes. -/
def FsTree.lookup : FsTree → Path → Option FsTree
  | t, [] => some t
  | FsTree.file _, _ :: _ => none
  | FsTree.dir es, n :: rest =>
    match getEntry es n with
    | none => none
    | some t => FsTree.lookup t rest

/-- Error kinds of `std::io::Error` distinguished by the sources: `NotFound`
versus everything else. -/
inductive IOErrorKind where
  | notFound
  | other
deriving DecidableEq, Repr

/-- Models `fs::create_dir_all`: creates every missing directory along the
path; fails (kind ≠ `NotFound`) when a component exists as a file. -/
def create_dir_all : FsTree → Path → Except IOErrorKind FsTree
  | t, [] => Except.ok t
  | FsTree.file _, _ :: _ => Except.error IOErrorKind.other
  | FsTree.dir es, n :: rest =>
    match getEntry es n with
    | some t =>
      match create_dir_all t rest with
      | Except.error e => Except.error e
      | Except.ok t1 => Except.ok (FsTree.dir (setEntry es n t1))
    | none =>
      match create_dir_all (FsTree.dir []) rest with
      | Except.error e => Except.error e
      | Except.ok t1 => Except.ok (FsTree.dir (setEntry es n t1))

/-- Writes a regular file at a path whose parent directory already exists,
overwriting any file previously there; fails when an ancestor is missing
(`NotFound`) or a component (or the target itself) is of the wrong kind. -/
def writeFile : FsTree → Path → Nat → Except IOErrorKind FsTree
  | _, [], _ => Except.error IOErrorKind.other
  | FsTree.file _, _ :: _, _ => Except.error IOErrorKind.other
  | FsTree.dir es, [n], data =>
    match getEntry es n with
    | some (FsTree.dir _) => Except.error IOErrorKind.other
    | _ => Except.ok (FsTree.dir (setEntry es n (FsTree.file data)))
  | FsTree.dir es, n :: m :: rest, data =>
    match getEntry es n with
    | none => Except.error IOErrorKind.notFound
    | some t =>
      match writeFile t (m :: rest) data with
      | Except.error e => Except.error e
      | Except.ok t1 => Except.ok (FsTree.dir (setEntry es n t1))

/-- Models `fs::copy src dst` as used in `copy_dir_all`: the source must be a
regular file (`NotFound` when absent), and its contents are written at the
destination. -/
def copy_file (fs : FsTree) (src dst : Path) : Except IOErrorKind FsTree :=
  match fs.lookup src with
  | none => Except.error IOErrorKind.notFound
  | some (FsTree.dir _) => Except.error IOErrorKind.other
  | some (FsTree.file d) => writeFile fs dst d

/-- Models `fs::read_dir` together with the per-entry `file_name`/`file_type`
calls of `copy_dir_all`: the listed names and their directory flags. -/
def read_dir (fs : FsTree) (p : Path) : Except IOErrorKind (List (String × Bool)) :=
  match fs.lookup p with
  | none => Except.error IOErrorKind.notFound
  | some (FsTree.file _) => Except.error IOErrorKind.other
  | some (FsTree.dir es) => Except.ok (es.map fun e => (e.1, e.2.isDir))

/-- Deletes the node at a path, if any (helper for `remove_dir_all`). -/
def removeAt : FsTree → Path → FsTree
  | t, [] => t
  | FsTree.file d, _ :: _ => FsTree.file d
  | FsTree.dir es, [n] => FsTree.dir (eraseEntry es n)
  | FsTree.dir es, n :: m :: rest =>
    FsTree.dir (mapEntry es n (fun t => removeAt t (m :: rest)))

/-- Models `fs::remove_dir_all`: `NotFound` when the path denotes nothing,
a non-`NotFound` error when it denotes a regular file, otherwise removes the
whole directory. -/
def remove_dir_all (fs : FsTree) (p : Path) : Except IOErrorKind FsTree :=
  match fs.lookup p with
  | none => Except.error IOErrorKind.notFound
  | some (FsTree.file _) => Except.error IOErrorKind.other
  | some (FsTree.dir _) => Except.ok (removeAt fs p)

/-- Outcome of a Rust computation that can panic (`Option::unwrap` on `None`). -/
inductive Panics (α : Type) where
  | panics
  | ok (val : α)

/-- Outcome of running one of the engine's entry points against a filesystem:
a panic, divergence (fuel exhaustion of the recursive copy), or termination
with the final filesystem and the returned `Result`. -/
inductive RunResult (ε : Type) where
  | panic
  | diverge
  | done (fs : FsTree) (r : Except ε Unit)

/-- Embeds `DBSZInstallation` from `mint_lib/src/lib.rs`. -/
structure DBSZInstallation where
  root : Path

/-- Embeds `DBSZInstallation::binaries_directory`. -/
def DBSZInstallation.binaries_directory (self : DBSZInstallation) : Path :=
  self.root ++ ["Binaries", "Win64"]

/-- Embeds `DBSZInstallation::paks_path`. -/
def DBSZInstallation.paks_path (self : DBSZInstallation) : Path :=
  self.root ++ ["Content", "Paks"]

/-- Embeds `DBSZInstallation::mods_path`. -/
def DBSZInstallation.mods_path (self : DBSZInstallation) : Path :=
  self.root ++ ["Mods"]

/-- Embeds `DBSZInstallation::from_game_path`: takes the parent of the given
path with `.unwrap()` — a panic when there is no parent — and otherwise
always returns `Ok`. -/
def DBSZInstallation.from_game_path (game : Path) :
    Panics (Except String DBSZInstallation) :=
  match Path.parent game with
  | none => Panics.panics
  | some root => Panics.ok (Except.ok { root := root })

/-- Embeds `snafu::Whatever` errors as produced by `uninstall`: either the
installation-lookup context or a failed removal at a path (the Rust message is
`failed to remove` followed by the path, so the error identifies that path). -/
inductive WhateverError where
  | context (msg : String)
  | failedRemove (path : Path) (source : IOErrorKind)

/-- The `match fs::remove_dir_all(&p)` block of `uninstall`: success and the
`NotFound` error kind are both success (the filesystem is unchanged in the
latter case), every other error is propagated. -/
def remove_ignoring_not_found (fs : FsTree) (p : Path) : Except IOErrorKind FsTree :=
  match remove_dir_all fs p with
  | Except.ok fs1 => Except.ok fs1
  | Except.error e =>
    if e = IOErrorKind.notFound then Except.ok fs else Except.error e

/-- Embeds `uninstall` from `src/integrate.rs`.  The `modio_mods` argument is
part of the signature but never read. -/
def uninstall (path_pak : Path) (modio_mods : List Nat) (fs : FsTree) :
    RunResult WhateverError :=
  match DBSZInstallation.from_game_path path_pak with
  | Panics.panics => RunResult.panic
  | Panics.ok (Except.error _) =>
    RunResult.done fs
      (Except.error (WhateverError.context "failed to get DBSZ installation"))
  | Panics.ok (Except.ok installation) =>
    let path_mods := installation.mods_path
    match remove_ignoring_not_found fs path_mods with
    | Except.error e =>
      RunResult.done fs (Except.error (WhateverError.failedRemove path_mods e))
    | Except.ok fs1 =>
      let path_mods_paks := installation.paks_path ++ ["~mods"]
      match remove_ignoring_not_found fs1 path_mods_paks with
      | Except.error e =>
        RunResult.done fs1 (Except.error (WhateverError.failedRemove path_mods_paks e))
      | Except.ok fs2 => RunResult.done fs2 (Except.ok ())

/-- Embeds `IntegrationError` from `src/integrate.rs`; opaque payloads
(`repak::Error`, boxed errors, join errors, …) are carried as strings. -/
inductive IntegrationError where
  | DrgInstallationNotFound (path : Path)
  | IoError (source : IOErrorKind)
  | RepakError (source : String)
  | UnrealAssetError (source : String)
  | CtxtIoError (source : IOErrorKind) (mod_info : ModInfo)
  | CtxtRepakError (source : String) (mod_info : ModInfo)
  | ModfileInvalidPrefix (mod_info : ModInfo) (modfile_path : String)
  | CtxtGenericError (source : String) (mod_info : ModInfo)
  | ProviderError (source : String)
  | GenericError (msg : String)
  | JoinError (source : String)
  | LintError (source : String)
  | SelfUpdateFailed (source : String)

/-- The entry loop of `copy_dir_all` (`for entry in fs::read_dir(src)?`);
`recur` is the recursive call used for subdirectory entries (the same
`copy_dir_all` at the remaining fuel). -/
def copy_entries_go
    (recur : FsTree → Path → Path → Option (FsTree × Except IOErrorKind Unit)) :
    FsTree → Path → Path → List (String × Bool) →
    Option (FsTree × Except IOErrorKind Unit)
  | fs, _, _, [] => some (fs, Except.ok ())
  | fs, src, dst, (n, d) :: rest =>
    if d then
      match recur fs (src ++ [n]) (dst ++ [n]) with
      | none => none
      | some (fs1, Except.error e) => some (fs1, Except.error e)
      | some (fs1, Except.ok ()) => copy_entries_go recur fs1 src dst rest
    else
      match copy_file fs (src ++ [n]) (dst ++ [n]) with
      | Except.error e => some (fs, Except.error e)
      | Except.ok fs1 => copy_entries_go recur fs1 src dst rest

/-- Embeds `copy_dir_all` from `src/integrate.rs`: create the destination
directory chain, list the source directory, then copy each entry; fuelled
because the Rust recursion is over the (mutable) filesystem. -/
def copy_dir_all : Nat → FsTree → Path → Path → Option (FsTree × Except IOErrorKind Unit)
  | 0, _, _, _ => none
  | Nat.succ fuel, fs, src, dst =>
    match create_dir_all fs dst with
    | Except.error e => some (fs, Except.error e)
    | Except.ok fs1 =>
      match read_dir fs1 src with
      | Except.error e => some (fs1, Except.error e)
      | Except.ok entries =>
        copy_entries_go (fun fs2 src2 dst2 => copy_dir_all fuel fs2 src2 dst2)
          fs1 src dst entries

/-- The entry loop at a given fuel, as invoked by `copy_dir_all`. -/
def copy_entries (fuel : Nat) :
    FsTree → Path → Path → List (String × Bool) →
    Option (FsTree × Except IOErrorKind Unit) :=
  copy_entries_go (fun fs src dst => copy_dir_all fuel fs src dst)

/-- Correctness of `copy_dir_all` at a given fuel: a successful copy leaves
every path outside the destination untouched, and places every file of the
source subtree at the same relative path under the destination (provided
source and destination do not overlap). -/
def CopyDirSpec (fuel : Nat) : Prop :=
  ∀ fs src dst fs',
    copy_dir_all fuel fs src dst = some (fs', Except.ok ()) →
    (∀ q, ¬(dst <+: q) → ¬(q <+: dst) → FsTree.lookup fs' q = FsTree.lookup fs q)
    ∧ (¬(src <+: dst) → ¬(dst <+: src) →
      ∀ rel d, FsTree.lookup fs (src ++ rel) = some (FsTree.file d) →
        FsTree.lookup fs' (dst ++ rel) = some (FsTree.file d))

/-- Correctness of the entry loop of `copy_dir_all` at a given fuel: a
successful run touches only paths below the destination children named by the
entries, and copies the source subtree of every listed entry to the matching
destination child. -/
def CopyEntriesSpec (fuel : Nat) : Prop :=
  ∀ (entries : List (String × Bool)) (fs : FsTree) (src dst : Path) (fs' : FsTree),
    copy_entries fuel fs src dst entries = some (fs', Except.ok ()) →
    (∀ q, ¬(q <+: dst) →
      (∀ m c, (m, c) ∈ entries → ¬(dst ++ [m] <+: q)) →
      FsTree.lookup fs' q = FsTree.lookup fs q)
    ∧ (¬(src <+: dst) → ¬(dst <+: src) →
      ∀ n b, (n, b) ∈ entries →
      ∀ rel d, FsTree.lookup fs (src ++ [n] ++ rel) = some (FsTree.file d) →
        FsTree.lookup fs' (dst ++ [n] ++ rel) = some (FsTree.file d))

/-- The per-mod destination directory selected by `integrate`: a pure function
of the installation and the mod. -/
def mod_dest (installation : DBSZInstallation) (mod_info : ModInfo) : Path :=
  match mod_info.mod_type with
  | ModType.ModPlugin => installation.mods_path ++ [mod_info.name]
  | ModType.Pak => installation.paks_path ++ ["~mods", mod_info.name]

/-- The `for (mod_info, path) in &mods` loop of `integrate`. -/
def integrate_loop (fuel : Nat) (installation : DBSZInstallation)
    (mods : List (ModInfo × Path)) (fs : FsTree) : RunResult IntegrationError :=
  match mods with
  | [] => RunResult.done fs (Except.ok ())
  | (mod_info, path) :: rest =>
    match mod_info.mod_type with
    | ModType.ModPlugin =>
      match copy_dir_all fuel fs path (installation.mods_path ++ [mod_info.name]) with
      | none => RunResult.diverge
      | some (fs1, Except.error e) =>
        RunResult.done fs1 (Except.error (IntegrationError.IoError e))
      | some (fs1, Except.ok ()) => integrate_loop fuel installation rest fs1
    | ModType.Pak =>
      match copy_dir_all fuel fs path
          (installation.paks_path ++ ["~mods", mod_info.name]) with
      | none => RunResult.diverge
      | some (fs1, Except.error e) =>
        RunResult.done fs1 (Except.error (IntegrationError.IoError e))
      | some (fs1, Except.ok ()) => integrate_loop fuel installation rest fs1

/-- Embeds `integrate` from `src/integrate.rs`: resolve the installation from
the project path (`let Ok(installation) = … else return Err(…)`), then copy
each mod in input order, aborting on the first failing copy. -/
def integrate (fuel : Nat) (path_project : Path) (mods : List (ModInfo × Path))
    (fs : FsTree) : RunResult IntegrationError :=
  match DBSZInstallation.from_game_path path_project with
  | Panics.panics => RunResult.panic
  | Panics.ok (Except.error _) =>
    RunResult.done fs (Except.error (IntegrationError.DrgInstallationNotFound path_project))
  | Panics.ok (Except.ok installation) => integrate_loop fuel installation mods fs

/-!
Theorems.  First the helper lemmas about the embedded definitions, then one
theorem per claim (with a witness where the claim theorem has hypotheses).
-/

theorem deserialize_mods_round (l : List MetaMod) :
    deserialize_mods (l.map serialize_meta_mod) = some l := by
  induction l with
  | nil => rfl
  | cons m rest ih =>
    simp [List.map, deserialize_mods, serialize_meta_mod, deserialize_meta_mod, jget, ih]

/-- C1: `satisfies_dependency(candidate, required)` is true iff one url is a
string-prefix of the other, and it is therefore reflexive and symmetric. -/
theorem satisfies_dependency_iff_and_refl_and_symm (candidate required : ModSpecification) :
    (candidate.satisfies_dependency required = true ↔
      (candidate.url.data <+: required.url.data ∨ required.url.data <+: candidate.url.data))
    ∧ candidate.satisfies_dependency candidate = true
    ∧ candidate.satisfies_dependency required = required.satisfies_dependency candidate := by
  refine ⟨?_, ?_, ?_⟩
  · simp [ModSpecification.satisfies_dependency, str_starts_with,
      List.isPrefixOf_iff_prefix, Or.comm]
  · simp [ModSpecification.satisfies_dependency, str_starts_with,
      List.isPrefixOf_iff_prefix]
  · simp [ModSpecification.satisfies_dependency, Bool.or_comm]

/-- C10: a specification whose url is the empty string satisfies (and is
satisfied by) every specification, since the empty string is a prefix of
every string. -/
theorem empty_url_satisfies_all (s : ModSpecification) :
    (ModSpecification.new "").satisfies_dependency s = true
    ∧ s.satisfies_dependency (ModSpecification.new "") = true := by
  constructor <;>
    simp [ModSpecification.new, ModSpecification.satisfies_dependency, str_starts_with,
      List.isPrefixOf_iff_prefix]

/-- C7: `get_resolvable_url_or_name` returns the identifier string when the
status is `Resolvable` and the stored reason when it is `Unresolvable`, for
every constructed `ModResolution`. -/
theorem get_resolvable_url_or_name_spec (u : ModIdentifier) (name : String)
    (r : ModResolution) :
    (ModResolution.resolvable u).get_resolvable_url_or_name = u.val
    ∧ (ModResolution.unresolvable u name).get_resolvable_url_or_name = name
    ∧ (r.status = ResolvableStatus.Resolvable →
        r.get_resolvable_url_or_name = r.url.val)
    ∧ (∀ reason, r.status = ResolvableStatus.Unresolvable reason →
        r.get_resolvable_url_or_name = reason) := by
  refine ⟨rfl, rfl, ?_, ?_⟩
  · intro h; simp [ModResolution.get_resolvable_url_or_name, h]
  · intro reason h; simp [ModResolution.get_resolvable_url_or_name, h]

/-- Witness for C7 at a concrete resolution. -/
theorem get_resolvable_url_or_name_spec_witness :
    (ModResolution.resolvable (ModIdentifier.mk "modio/foo")).get_resolvable_url_or_name
      = "modio/foo" :=
  (get_resolvable_url_or_name_spec (ModIdentifier.mk "modio/foo") "foo"
    (ModResolution.resolvable (ModIdentifier.mk "modio/foo"))).2.2.1 rfl

/-- C8: serializing a `Meta` record and deserializing the result reproduces
the record exactly: same version, same mods in the same order, same config. -/
theorem meta_round_trip (m : Meta) : deserialize_meta (serialize_meta m) = some m := by
  obtain ⟨v, mods, c⟩ := m
  simp [serialize_meta, deserialize_meta, jget, serialize_semver, deserialize_semver,
    serialize_meta_config, deserialize_meta_config, deserialize_mods_round]

/-- C5: `from_game_path` on a path without a parent (e.g. the empty path)
panics inside `.parent().unwrap()` instead of returning an error. -/
theorem from_game_path_empty_panics :
    DBSZInstallation.from_game_path [] = Panics.panics := rfl

/-- C4: `integrate` on a path that cannot be interpreted as a game location
(one with no parent) panics inside `from_game_path` instead of returning the
`DrgInstallationNotFound` error. -/
theorem integrate_empty_path_panics (fuel : Nat) (mods : List (ModInfo × Path))
    (fs : FsTree) : integrate fuel [] mods fs = RunResult.panic := rfl

/-- C9: the `modio_mods` argument of `uninstall` is never read — two runs that
differ only in it perform the same removals and return the same result. -/
theorem uninstall_ignores_ids (path_pak : Path) (ids1 ids2 : List Nat) (fs : FsTree) :
    uninstall path_pak ids1 fs = uninstall path_pak ids2 fs := rfl

theorem getEntry_eraseEntry_self (es : List (String × FsTree)) (n : String) :
    getEntry (eraseEntry es n) n = none := by
  induction es with
  | nil => rfl
  | cons e rest ih =>
    simp only [eraseEntry, List.filter_cons] at *
    by_cases h : e.1 = n
    · simp [h, ih]
    · simp [h, getEntry, ih]

theorem getEntry_eraseEntry_ne (es : List (String × FsTree)) (n k : String) (h : k ≠ n) :
    getEntry (eraseEntry es n) k = getEntry es k := by
  induction es with
  | nil => rfl
  | cons e rest ih =>
    simp only [eraseEntry, List.filter_cons] at *
    by_cases h1 : e.1 = n
    · have h2 : ¬(e.1 = k) := by rw [h1]; exact fun hh => h hh.symm
      simp [h1, getEntry, h2, ih, Ne.symm h]
    · simp [h1, getEntry, ih]

theorem getEntry_mapEntry (es : List (String × FsTree)) (n : String)
    (f : FsTree → FsTree) (k : String) :
    getEntry (mapEntry es n f) k =
      if k = n then (getEntry es n).map f else getEntry es k := by
  induction es with
  | nil => simp [mapEntry, getEntry]
  | cons e rest ih =>
    obtain ⟨a, t⟩ := e
    simp only [mapEntry, List.map_cons] at ih ⊢
    by_cases h1 : a = n
    · subst h1
      rw [if_pos rfl]
      by_cases h2 : k = a
      · subst h2
        simp [getEntry, ih]
      · simp [getEntry, ih, h2, Ne.symm h2]
    · rw [if_neg h1]
      by_cases h2 : k = n
      · subst h2
        simp [getEntry, ih, h1]
      · simp [getEntry, ih, h1, h2]

theorem lookup_removeAt_self (p : Path) (fs : FsTree) (hp : p ≠ []) :
    FsTree.lookup (removeAt fs p) p = none := by
  induction p generalizing fs with
  | nil => exact absurd rfl hp
  | cons n rest ih =>
    cases fs with
    | file d => cases rest <;> rfl
    | dir es =>
      cases rest with
      | nil => simp [removeAt, FsTree.lookup, getEntry_eraseEntry_self]
      | cons m rest2 =>
        simp only [removeAt, FsTree.lookup]
        rw [getEntry_mapEntry, if_pos rfl]
        cases hg : getEntry es n with
        | none => rfl
        | some t => simpa using ih t (by simp)

theorem lookup_removeAt_incomp (p : Path) (fs : FsTree) (q : Path)
    (h1 : ¬(p <+: q)) (h2 : ¬(q <+: p)) :
    FsTree.lookup (removeAt fs p) q = FsTree.lookup fs q := by
  induction p generalizing fs q with
  | nil => exact absurd (List.nil_prefix) h1
  | cons n rest ih =>
    cases q with
    | nil => exact absurd (List.nil_prefix) h2
    | cons k q2 =>
      cases fs with
      | file d => rfl
      | dir es =>
        by_cases hk : k = n
        · subst hk
          cases rest with
          | nil => exact absurd (by simp [List.cons_prefix_cons]) h1
          | cons m rest2 =>
            simp only [removeAt, FsTree.lookup]
            rw [getEntry_mapEntry, if_pos rfl]
            cases hg : getEntry es k with
            | none => rfl
            | some t =>
              simp only [Option.map_some]
              exact ih t q2
                (fun hh => h1 (by simpa [List.cons_prefix_cons] using hh))
                (fun hh => h2 (by simpa [List.cons_prefix_cons] using hh))
        · cases rest with
          | nil =>
            simp only [removeAt, FsTree.lookup]
            rw [getEntry_eraseEntry_ne es n k hk]
          | cons m rest2 =>
            simp only [removeAt, FsTree.lookup]
            rw [getEntry_mapEntry, if_neg hk]

theorem remove_ignoring_not_found_ok (fs fs' : FsTree) (p : Path) (hp : p ≠ [])
    (h : remove_ignoring_not_found fs p = Except.ok fs') :
    FsTree.lookup fs' p = none
    ∧ ∀ q, ¬(p <+: q) → ¬(q <+: p) → FsTree.lookup fs' q = FsTree.lookup fs q := by
  unfold remove_ignoring_not_found remove_dir_all at h
  cases hl : FsTree.lookup fs p with
  | none =>
    rw [hl] at h
    simp only [reduceIte] at h
    cases h
    exact ⟨hl, fun q _ _ => rfl⟩
  | some t =>
    cases t with
    | file d => rw [hl] at h; simp at h
    | dir es =>
      rw [hl] at h
      cases h
      exact ⟨lookup_removeAt_self p fs hp,
        fun q hq1 hq2 => lookup_removeAt_incomp p fs q hq1 hq2⟩

theorem remove_ignoring_not_found_none (fs : FsTree) (p : Path)
    (h : FsTree.lookup fs p = none) :
    remove_ignoring_not_found fs p = Except.ok fs := by
  simp [remove_ignoring_not_found, remove_dir_all, h]

theorem remove_ignoring_not_found_error (fs : FsTree) (p : Path) (e : IOErrorKind)
    (h : remove_dir_all fs p = Except.error e) (hne : e ≠ IOErrorKind.notFound) :
    remove_ignoring_not_found fs p = Except.error e := by
  simp [remove_ignoring_not_found, h, hne]

theorem uninstall_eq (game root : Path) (ids : List Nat) (fs : FsTree)
    (h : Path.parent game = some root) :
    uninstall game ids fs =
      (match remove_ignoring_not_found fs (root ++ ["Mods"]) with
       | Except.error e =>
         RunResult.done fs
           (Except.error (WhateverError.failedRemove (root ++ ["Mods"]) e))
       | Except.ok fs1 =>
         match remove_ignoring_not_found fs1 (root ++ ["Content", "Paks", "~mods"]) with
         | Except.error e =>
           RunResult.done fs1
             (Except.error
               (WhateverError.failedRemove (root ++ ["Content", "Paks", "~mods"]) e))
         | Except.ok fs2 => RunResult.done fs2 (Except.ok ())) := by
  unfold uninstall DBSZInstallation.from_game_path
  rw [h]
  simp [DBSZInstallation.mods_path, DBSZInstallation.paks_path]

theorem append_cons_not_prefix {root : Path} {a b : String} {l1 l2 : List String}
    (hab : a ≠ b) : ¬(root ++ a :: l1 <+: root ++ b :: l2) := by
  rw [ List.prefix_append_right_inj, List.cons_prefix_cons]
  exact fun h => hab h.1

/-- C6: `uninstall` removes both managed directories, treats an absent target
as success (so a clean installation, or a second run, yields success), and
reports any other removal failure with the path that could not be removed. -/
theorem uninstall_spec (game root : Path) (ids : List Nat) (fs : FsTree)
    (hroot : Path.parent game = some root) :
    (∀ fs1, uninstall game ids fs = RunResult.done fs1 (Except.ok ()) →
      FsTree.lookup fs1 (root ++ ["Mods"]) = none
      ∧ FsTree.lookup fs1 (root ++ ["Content", "Paks", "~mods"]) = none
      ∧ uninstall game ids fs1 = RunResult.done fs1 (Except.ok ()))
    ∧ (FsTree.lookup fs (root ++ ["Mods"]) = none →
       FsTree.lookup fs (root ++ ["Content", "Paks", "~mods"]) = none →
       uninstall game ids fs = RunResult.done fs (Except.ok ()))
    ∧ (∀ e, remove_dir_all fs (root ++ ["Mods"]) = Except.error e →
       e ≠ IOErrorKind.notFound →
       uninstall game ids fs = RunResult.done fs
         (Except.error (WhateverError.failedRemove (root ++ ["Mods"]) e)))
    ∧ (∀ fs1 e, remove_ignoring_not_found fs (root ++ ["Mods"]) = Except.ok fs1 →
       remove_dir_all fs1 (root ++ ["Content", "Paks", "~mods"]) = Except.error e →
       e ≠ IOErrorKind.notFound →
       uninstall game ids fs = RunResult.done fs1
         (Except.error
           (WhateverError.failedRemove (root ++ ["Content", "Paks", "~mods"]) e))) := by
  have hm : (root ++ ["Mods"] : Path) ≠ [] := by simp
  have hpk : (root ++ ["Content", "Paks", "~mods"] : Path) ≠ [] := by simp
  have hinc1 : ¬((root ++ ["Mods"] : Path) <+: root ++ ["Content", "Paks", "~mods"]) :=
    append_cons_not_prefix (by decide)
  have hinc2 : ¬((root ++ ["Content", "Paks", "~mods"] : Path) <+: root ++ ["Mods"]) :=
    append_cons_not_prefix (by decide)
  refine ⟨?_, ?_, ?_, ?_⟩
  · intro fs1 hrun
    rw [uninstall_eq game root ids fs hroot] at hrun
    cases h1 : remove_ignoring_not_found fs (root ++ ["Mods"]) with
    | error e => simp [h1] at hrun
    | ok fsa =>
      simp only [h1] at hrun
      cases h2 : remove_ignoring_not_found fsa (root ++ ["Content", "Paks", "~mods"]) with
      | error e => simp [h2] at hrun
      | ok fsb =>
        simp only [h2, RunResult.done.injEq] at hrun
        obtain ⟨rfl, -⟩ := hrun
        obtain ⟨hma, hfra⟩ :=
          remove_ignoring_not_found_ok fs fsa (root ++ ["Mods"]) hm h1
        obtain ⟨hpb, hfrb⟩ :=
          remove_ignoring_not_found_ok fsa fsb (root ++ ["Content", "Paks", "~mods"]) hpk h2
        have hmb : FsTree.lookup fsb (root ++ ["Mods"]) = none := by
          rw [hfrb (root ++ ["Mods"]) hinc2 hinc1]; exact hma
        refine ⟨hmb, hpb, ?_⟩
        rw [uninstall_eq game root ids fsb hroot]
        simp only [remove_ignoring_not_found_none fsb _ hmb,
          remove_ignoring_not_found_none fsb _ hpb]
  · intro h1 h2
    rw [uninstall_eq game root ids fs hroot]
    simp only [remove_ignoring_not_found_none fs _ h1,
      remove_ignoring_not_found_none fs _ h2]
  · intro e h hne
    rw [uninstall_eq game root ids fs hroot]
    simp only [remove_ignoring_not_found_error fs _ e h hne]
  · intro fs1 e hok herr hne
    rw [uninstall_eq game root ids fs hroot]
    simp only [hok, remove_ignoring_not_found_error fs1 _ e herr hne]

/-- Witness for C6: uninstalling from an installation with neither managed
directory present succeeds and leaves the filesystem unchanged. -/
theorem uninstall_spec_witness :
    uninstall ["r", "game"] [] (FsTree.dir [("r", FsTree.dir [])])
      = RunResult.done (FsTree.dir [("r", FsTree.dir [])]) (Except.ok ()) :=
  (uninstall_spec ["r", "game"] ["r"] [] (FsTree.dir [("r", FsTree.dir [])]) rfl).2.1
    rfl rfl

theorem integrate_loop_step (fuel : Nat) (inst : DBSZInstallation) (mi : ModInfo)
    (p : Path) (rest : List (ModInfo × Path)) (fs : FsTree) :
    integrate_loop fuel inst ((mi, p) :: rest) fs =
      match copy_dir_all fuel fs p (mod_dest inst mi) with
      | none => RunResult.diverge
      | some (fs1, Except.error e) =>
        RunResult.done fs1 (Except.error (IntegrationError.IoError e))
      | some (fs1, Except.ok ()) => integrate_loop fuel inst rest fs1 := by
  cases hmt : mi.mod_type <;> simp [integrate_loop, mod_dest, hmt]

theorem integrate_loop_append (fuel : Nat) (inst : DBSZInstallation)
    (l1 l2 : List (ModInfo × Path)) (fs fs1 : FsTree)
    (h : integrate_loop fuel inst l1 fs = RunResult.done fs1 (Except.ok ())) :
    integrate_loop fuel inst (l1 ++ l2) fs = integrate_loop fuel inst l2 fs1 := by
  induction l1 generalizing fs with
  | nil =>
    simp only [integrate_loop, RunResult.done.injEq] at h
    obtain ⟨rfl, -⟩ := h
    simp
  | cons hd tl ih =>
    obtain ⟨mi, p⟩ := hd
    rw [integrate_loop_step] at h
    rw [List.cons_append, integrate_loop_step]
    cases hc : copy_dir_all fuel fs p (mod_dest inst mi) with
    | none => simp [hc] at h
    | some pr =>
      obtain ⟨fsa, r⟩ := pr
      cases r with
      | error e => simp [hc] at h
      | ok u =>
        cases u
        simp only [hc] at h ⊢
        exact ih fsa h

/-- C2: `integrate` processes the mods in input order and is fail-fast: when
the copy of one mod fails with an I/O error, after the earlier mods were
installed, the call returns exactly that I/O error with the filesystem as the
failing copy left it — the mods after the failing one are never installed. -/
theorem integrate_fail_fast (fuel : Nat) (game root : Path)
    (mods1 : List (ModInfo × Path)) (mi : ModInfo) (p : Path)
    (mods2 : List (ModInfo × Path)) (fs fs1 fs2 : FsTree) (e : IOErrorKind)
    (hroot : Path.parent game = some root)
    (hpre : integrate_loop fuel { root := root } mods1 fs
      = RunResult.done fs1 (Except.ok ()))
    (hfail : copy_dir_all fuel fs1 p (mod_dest { root := root } mi)
      = some (fs2, Except.error e)) :
    integrate fuel game (mods1 ++ (mi, p) :: mods2) fs
      = RunResult.done fs2 (Except.error (IntegrationError.IoError e)) := by
  unfold integrate DBSZInstallation.from_game_path
  rw [hroot]
  show integrate_loop fuel { root := root } (mods1 ++ (mi, p) :: mods2) fs = _
  rw [integrate_loop_append fuel _ mods1 _ fs fs1 hpre, integrate_loop_step]
  simp only [hfail]

/-- Witness for C2: a single `Pak` mod whose artifact path does not exist
makes `integrate` return the `NotFound` I/O error, with only the (empty)
destination chain created and nothing after the failing mod installed. -/
theorem integrate_fail_fast_witness :
    integrate 1 ["r", "g"]
        [({ provider := "p", name := "Bar", spec := { url := "u" }, versions := [],
            resolution := { url := { val := "u" }, status := ResolvableStatus.Resolvable },
            suggested_require := false, suggested_dependencies := [],
            mod_type := ModType.Pak }, ["art"])] (FsTree.dir [])
      = RunResult.done
          (FsTree.dir [("r", FsTree.dir [("Content", FsTree.dir [("Paks",
            FsTree.dir [("~mods", FsTree.dir [("Bar", FsTree.dir [])])])])])])
          (Except.error (IntegrationError.IoError IOErrorKind.notFound)) :=
  integrate_fail_fast 1 ["r", "g"] ["r"] [] _ ["art"] [] (FsTree.dir [])
    (FsTree.dir []) _ IOErrorKind.notFound rfl rfl rfl

theorem getEntry_setEntry (es : List (String × FsTree)) (n : String) (t : FsTree)
    (k : String) :
    getEntry (setEntry es n t) k = if k = n then some t else getEntry es k := by
  induction es with
  | nil =>
    by_cases h : k = n
    · subst h; simp [setEntry, getEntry]
    · simp [setEntry, getEntry, h, Ne.symm h]
  | cons e rest ih =>
    obtain ⟨a, u⟩ := e
    simp only [setEntry]
    by_cases h1 : a = n
    · subst h1
      rw [if_pos rfl]
      by_cases h2 : k = a
      · subst h2; simp [getEntry]
      · simp [getEntry, h2, Ne.symm h2]
    · rw [if_neg h1]
      by_cases h2 : k = n
      · subst h2
        simp [getEntry, h1, ih]
      · simp [getEntry, ih, h2]

theorem lookup_append (fs : FsTree) (p q : Path) :
    FsTree.lookup fs (p ++ q) = (FsTree.lookup fs p).bind fun t => FsTree.lookup t q := by
  induction p generalizing fs with
  | nil => simp [FsTree.lookup]
  | cons n rest ih =>
    cases fs with
    | file d => simp [FsTree.lookup]
    | dir es =>
      simp only [List.cons_append, FsTree.lookup]
      cases hg : getEntry es n with
      | none => simp
      | some t => simp [ih]

theorem incomp_append {p q : Path} (h1 : ¬(p <+: q)) (h2 : ¬(q <+: p))
    (l1 l2 : List String) : ¬(p ++ l1 <+: q ++ l2) := by
  intro hh
  have hp : p <+: q ++ l2 := ( List.prefix_append p l1).trans hh
  have hq : q <+: q ++ l2 := List.prefix_append q l2
  rcases List.prefix_or_prefix_of_prefix hp hq with hc | hc
  · exact h1 hc
  · exact h2 hc

theorem not_append_cons_prefix_self {p : Path} {n : String} {rel : List String} :
    ¬(p ++ n :: rel <+: p) := by
  intro hh
  have := hh.length_le
  simp only [List.length_append, List.length_cons] at this
  omega

theorem child_prefix_name {dst : Path} {m n : String} {rel : List String}
    (hh : dst ++ [m] <+: dst ++ n :: rel) : m = n := by
  rw [ List.prefix_append_right_inj] at hh
  exact (List.cons_prefix_cons.mp hh).1

theorem not_prefix_snoc {q dst : Path} {n : String} (hq1 : ¬(q <+: dst))
    (hq2 : ¬(dst ++ [n] <+: q)) : ¬(q <+: dst ++ [n]) := by
  intro hh
  rcases List.prefix_concat_iff.mp hh with heq | hpre
  · exact hq2 (heq ▸ List.prefix_rfl)
  · exact hq1 hpre

theorem getEntry_isDir_mem (es : List (String × FsTree)) (n : String) (t : FsTree)
    (h : getEntry es n = some t) :
    (n, t.isDir) ∈ es.map fun e => (e.1, e.2.isDir) := by
  induction es with
  | nil => simp [getEntry] at h
  | cons e rest ih =>
    obtain ⟨a, u⟩ := e
    simp only [getEntry] at h
    by_cases ha : a = n
    · rw [if_pos ha] at h
      cases h
      subst ha
      simp
    · rw [if_neg ha] at h
      simp [ih h]

theorem writeFile_ok (p : Path) (fs fs' : FsTree) (d : Nat)
    (h : writeFile fs p d = Except.ok fs') :
    FsTree.lookup fs' p = some (FsTree.file d)
    ∧ ∀ q, ¬(p <+: q) → ¬(q <+: p) → FsTree.lookup fs' q = FsTree.lookup fs q := by
  induction p generalizing fs fs' with
  | nil => simp [writeFile] at h
  | cons n rest ih =>
    cases fs with
    | file d0 => simp [writeFile] at h
    | dir es =>
      cases rest with
      | nil =>
        simp only [writeFile] at h
        cases hg : getEntry es n with
        | none =>
          simp only [hg] at h
          cases h
          constructor
          · simp [FsTree.lookup, getEntry_setEntry]
          · intro q hq1 hq2
            cases q with
            | nil => exact absurd (List.nil_prefix) hq2
            | cons k q2 =>
              by_cases hkn : k = n
              · subst hkn
                exact absurd (by simp [List.cons_prefix_cons]) hq1
              · simp [FsTree.lookup, getEntry_setEntry, hkn]
        | some t =>
          cases t with
          | dir es2 => simp [hg] at h
          | file f0 =>
            simp only [hg] at h
            cases h
            constructor
            · simp [FsTree.lookup, getEntry_setEntry]
            · intro q hq1 hq2
              cases q with
              | nil => exact absurd (List.nil_prefix) hq2
              | cons k q2 =>
                by_cases hkn : k = n
                · subst hkn
                  exact absurd (by simp [List.cons_prefix_cons]) hq1
                · simp [FsTree.lookup, getEntry_setEntry, hkn]
      | cons m rest2 =>
        simp only [writeFile] at h
        cases hg : getEntry es n with
        | none => simp [hg] at h
        | some t =>
          simp only [hg] at h
          cases hw : writeFile t (m :: rest2) d with
          | error e => simp [hw] at h
          | ok t1 =>
            simp only [hw] at h
            cases h
            obtain ⟨ih1, ih2⟩ := ih t t1 hw
            constructor
            · simpa [FsTree.lookup, getEntry_setEntry] using ih1
            · intro q hq1 hq2
              cases q with
              | nil => exact absurd (List.nil_prefix) hq2
              | cons k q2 =>
                by_cases hkn : k = n
                · subst hkn
                  have hq1a : ¬((m :: rest2 : Path) <+: q2) := fun hh =>
                    hq1 (by simpa [List.cons_prefix_cons] using hh)
                  have hq2a : ¬(q2 <+: (m :: rest2 : Path)) := fun hh =>
                    hq2 (by simpa [List.cons_prefix_cons] using hh)
                  simp [FsTree.lookup, getEntry_setEntry, hg, ih2 q2 hq1a hq2a]
                · simp [FsTree.lookup, getEntry_setEntry, hkn]

theorem copy_file_ok (fs fs' : FsTree) (src dst : Path)
    (h : copy_file fs src dst = Except.ok fs') :
    (∃ d, FsTree.lookup fs src = some (FsTree.file d)
      ∧ FsTree.lookup fs' dst = some (FsTree.file d))
    ∧ ∀ q, ¬(dst <+: q) → ¬(q <+: dst) → FsTree.lookup fs' q = FsTree.lookup fs q := by
  unfold copy_file at h
  cases hl : FsTree.lookup fs src with
  | none => simp [hl] at h
  | some t =>
    cases t with
    | dir es => simp [hl] at h
    | file d =>
      simp only [hl] at h
      obtain ⟨h1, h2⟩ := writeFile_ok dst fs fs' d h
      exact ⟨⟨d, rfl, h1⟩, h2⟩

theorem create_dir_all_frame (p : Path) (fs fs' : FsTree)
    (h : create_dir_all fs p = Except.ok fs') :
    ∀ q, ¬(p <+: q) → ¬(q <+: p) → FsTree.lookup fs' q = FsTree.lookup fs q := by
  induction p generalizing fs fs' with
  | nil =>
    simp only [create_dir_all] at h
    cases h
    intro q _ _
    rfl
  | cons n rest ih =>
    cases fs with
    | file d => simp [create_dir_all] at h
    | dir es =>
      simp only [create_dir_all] at h
      cases hg : getEntry es n with
      | some t =>
        simp only [hg] at h
        cases hc : create_dir_all t rest with
        | error e => simp [hc] at h
        | ok t1 =>
          simp only [hc] at h
          cases h
          intro q hq1 hq2
          cases q with
          | nil => exact absurd (List.nil_prefix) hq2
          | cons k q2 =>
            by_cases hkn : k = n
            · subst hkn
              have hq1a : ¬((rest : Path) <+: q2) := fun hh =>
                hq1 (by simpa [List.cons_prefix_cons] using hh)
              have hq2a : ¬(q2 <+: (rest : Path)) := fun hh =>
                hq2 (by simpa [List.cons_prefix_cons] using hh)
              simp [FsTree.lookup, getEntry_setEntry, hg, ih t t1 hc q2 hq1a hq2a]
            · simp [FsTree.lookup, getEntry_setEntry, hkn]
      | none =>
        simp only [hg] at h
        cases hc : create_dir_all (FsTree.dir []) rest with
        | error e => simp [hc] at h
        | ok t1 =>
          simp only [hc] at h
          cases h
          intro q hq1 hq2
          cases q with
          | nil => exact absurd (List.nil_prefix) hq2
          | cons k q2 =>
            by_cases hkn : k = n
            · subst hkn
              have hq1a : ¬((rest : Path) <+: q2) := fun hh =>
                hq1 (by simpa [List.cons_prefix_cons] using hh)
              have hq2a : ¬(q2 <+: (rest : Path)) := fun hh =>
                hq2 (by simpa [List.cons_prefix_cons] using hh)
              have hne : q2 ≠ [] := fun hh => hq2a (hh ▸ List.nil_prefix)
              have hl0 : FsTree.lookup (FsTree.dir []) q2 = none := by
                cases q2 with
                | nil => exact absurd rfl hne
                | cons a b => simp [FsTree.lookup, getEntry]
              simp [FsTree.lookup, getEntry_setEntry, hg,
                ih (FsTree.dir []) t1 hc q2 hq1a hq2a, hl0]
            · simp [FsTree.lookup, getEntry_setEntry, hkn]

theorem copy_entries_correct_of (fuel : Nat) (A : CopyDirSpec fuel) :
    CopyEntriesSpec fuel := by
  intro entries
  induction entries with
  | nil =>
    intro fs src dst fs' h
    simp only [copy_entries, copy_entries_go, Option.some.injEq, Prod.mk.injEq] at h
    obtain ⟨rfl, -⟩ := h
    exact ⟨fun q _ _ => rfl, fun _ _ n b hm => absurd hm (List.not_mem_nil _)⟩
  | cons hd rest ih =>
    obtain ⟨n, b⟩ := hd
    intro fs src dst fs' h
    simp only [copy_entries, copy_entries_go] at h
    cases b with
    | false =>
      simp only [reduceIte, Bool.false_eq_true] at h
      cases hcf : copy_file fs (src ++ [n]) (dst ++ [n]) with
      | error e => simp [hcf] at h
      | ok fs1 =>
        simp only [hcf] at h
        obtain ⟨ihF, ihC⟩ := ih fs1 src dst fs' h
        obtain ⟨⟨d0, hsrc0, hdst0⟩, hfr⟩ :=
          copy_file_ok fs fs1 (src ++ [n]) (dst ++ [n]) hcf
        constructor
        · intro q hq1 hq2
          rw [ihF q hq1 (fun m c hm => hq2 m c (List.mem_cons_of_mem _ hm))]
          exact hfr q (hq2 n false (List.mem_cons_self _ _))
            (not_prefix_snoc hq1 (hq2 n false (List.mem_cons_self _ _)))
        · intro hsd hds m c hm rel d hl
          rcases List.mem_cons.mp hm with heq | hmem
          · injection heq with hm1 hm2
            subst hm1
            cases rel with
            | nil =>
              rw [List.append_nil] at hl
              rw [hsrc0] at hl
              simp only [Option.some.injEq, FsTree.file.injEq] at hl
              subst hl
              rw [List.append_nil]
              by_cases hdup : ∃ c2, (m, c2) ∈ rest
              · obtain ⟨c2, hc2⟩ := hdup
                have hpres : FsTree.lookup fs1 (src ++ [m]) = FsTree.lookup fs (src ++ [m]) :=
                  hfr _ (incomp_append hds hsd [m] [m]) (incomp_append hsd hds [m] [m])
                have hstep := ihC hsd hds m c2 hc2 [] d0
                  (by rw [List.append_nil, hpres, hsrc0])
                rw [List.append_nil] at hstep
                exact hstep
              · have hfs2 : FsTree.lookup fs' (dst ++ [m]) = FsTree.lookup fs1 (dst ++ [m]) :=
                  ihF (dst ++ [m]) not_append_cons_prefix_self
                    (fun m2 c2 hm2 hpre => hdup ⟨c2, (child_prefix_name hpre) ▸ hm2⟩)
                rw [hfs2, hdst0]
            | cons r rel2 =>
              rw [lookup_append fs (src ++ [m]) (r :: rel2), hsrc0] at hl
              simp [FsTree.lookup] at hl
          · have hpres : FsTree.lookup fs1 (src ++ [m] ++ rel)
                = FsTree.lookup fs (src ++ [m] ++ rel) := by
              rw [List.append_assoc]
              exact hfr _ (incomp_append hds hsd [n] ([m] ++ rel))
                (incomp_append hsd hds ([m] ++ rel) [n])
            exact ihC hsd hds m c hmem rel d (by rw [hpres]; exact hl)
    | true =>
      simp only [reduceIte] at h
      cases hcd : copy_dir_all fuel fs (src ++ [n]) (dst ++ [n]) with
      | none => simp [hcd] at h
      | some pr =>
        obtain ⟨fs1, r⟩ := pr
        cases r with
        | error e => simp [hcd] at h
        | ok u =>
          cases u
          simp only [hcd] at h
          obtain ⟨ihF, ihC⟩ := ih fs1 src dst fs' h
          obtain ⟨Afr, Acp⟩ := A fs (src ++ [n]) (dst ++ [n]) fs1 hcd
          constructor
          · intro q hq1 hq2
            rw [ihF q hq1 (fun m c hm => hq2 m c (List.mem_cons_of_mem _ hm))]
            exact Afr q (hq2 n true (List.mem_cons_self _ _))
              (not_prefix_snoc hq1 (hq2 n true (List.mem_cons_self _ _)))
          · intro hsd hds m c hm rel d hl
            rcases List.mem_cons.mp hm with heq | hmem
            · injection heq with hm1 hm2
              subst hm1
              by_cases hdup : ∃ c2, (m, c2) ∈ rest
              · obtain ⟨c2, hc2⟩ := hdup
                have hpres : FsTree.lookup fs1 (src ++ [m] ++ rel)
                    = FsTree.lookup fs (src ++ [m] ++ rel) := by
                  rw [List.append_assoc]
                  exact Afr _ (incomp_append hds hsd [m] ([m] ++ rel))
                    (incomp_append hsd hds ([m] ++ rel) [m])
                exact ihC hsd hds m c2 hc2 rel d (by rw [hpres]; exact hl)
              · have h1 : FsTree.lookup fs1 (dst ++ [m] ++ rel)
                    = some (FsTree.file d) :=
                  Acp (incomp_append hsd hds [m] [m]) (incomp_append hds hsd [m] [m])
                    rel d hl
                have h2 : FsTree.lookup fs' (dst ++ [m] ++ rel)
                    = FsTree.lookup fs1 (dst ++ [m] ++ rel) := by
                  apply ihF
                  · rw [List.append_assoc]
                    exact not_append_cons_prefix_self
                  · intro m2 c2 hm2 hpre
                    rw [List.append_assoc] at hpre
                    exact hdup ⟨c2, (child_prefix_name hpre) ▸ hm2⟩
                rw [h2, h1]
            · have hpres : FsTree.lookup fs1 (src ++ [m] ++ rel)
                  = FsTree.lookup fs (src ++ [m] ++ rel) := by
                rw [List.append_assoc]
                exact Afr _ (incomp_append hds hsd [n] ([m] ++ rel))
                  (incomp_append hsd hds ([m] ++ rel) [n])
              exact ihC hsd hds m c hmem rel d (by rw [hpres]; exact hl)

theorem copy_dir_all_correct_of (fuel : Nat) (B : CopyEntriesSpec fuel) :
    CopyDirSpec (fuel + 1) := by
  intro fs src dst fs' h
  simp only [copy_dir_all] at h
  cases hcr : create_dir_all fs dst with
  | error e => simp [hcr] at h
  | ok fs1 =>
    simp only [hcr] at h
    cases hrd : read_dir fs1 src with
    | error e => simp [hrd] at h
    | ok entries =>
      simp only [hrd] at h
      obtain ⟨Bfr, Bcp⟩ := B entries fs1 src dst fs' h
      have hcfr := create_dir_all_frame dst fs fs1 hcr
      constructor
      · intro q hq1 hq2
        rw [Bfr q hq2 (fun m c _ hpre => hq1 (( List.prefix_append dst [m]).trans hpre))]
        exact hcfr q hq1 hq2
      · intro hsd hds rel d hl
        unfold read_dir at hrd
        cases hls : FsTree.lookup fs1 src with
        | none => simp [hls] at hrd
        | some t =>
          cases t with
          | file d0 => simp [hls] at hrd
          | dir es =>
            simp only [hls, Except.ok.injEq] at hrd
            subst hrd
            have hl1 : FsTree.lookup fs1 (src ++ rel) = some (FsTree.file d) := by
              rw [hcfr (src ++ rel)
                (by have := incomp_append hds hsd ([] : List String) rel
                    simpa using this)
                (by have := incomp_append hsd hds rel ([] : List String)
                    simpa using this)]
              exact hl
            cases rel with
            | nil =>
              rw [List.append_nil, hls] at hl1
              simp at hl1
            | cons n rel2 =>
              rw [show (src ++ n :: rel2 : Path) = src ++ [n] ++ rel2 by simp] at hl1
              have hbind := hl1
              rw [lookup_append fs1 (src ++ [n]) rel2] at hbind
              cases hgt : FsTree.lookup fs1 (src ++ [n]) with
              | none => rw [hgt] at hbind; simp at hbind
              | some t2 =>
                have hx : FsTree.lookup fs1 (src ++ [n]) = getEntry es n := by
                  rw [lookup_append, hls]
                  cases hge : getEntry es n <;> simp [FsTree.lookup, hge]
                have hget : getEntry es n = some t2 := by rw [← hx, hgt]
                have hmem := getEntry_isDir_mem es n t2 hget
                have hres := Bcp hsd hds n t2.isDir hmem rel2 d hl1
                rw [show (dst ++ n :: rel2 : Path) = dst ++ [n] ++ rel2 by simp]
                exact hres

theorem copy_correct (fuel : Nat) : CopyDirSpec fuel ∧ CopyEntriesSpec fuel := by
  induction fuel with
  | zero =>
    have A0 : CopyDirSpec 0 := by
      intro fs src dst fs' h
      simp [copy_dir_all] at h
    exact ⟨A0, copy_entries_correct_of 0 A0⟩
  | succ fuel ih =>
    have A1 := copy_dir_all_correct_of fuel ih.2
    exact ⟨A1, copy_entries_correct_of (fuel + 1) A1⟩

/-- C3: each mod's destination is a pure function of the installation root
and the mod — a `ModPlugin` mod named `name` goes under `<root>/Mods/<name>`
and a `Pak` mod under `<root>/Content/Paks/~mods/<name>` — the per-mod copy
of `integrate` targets exactly that destination, and a successful copy places
every file of the artifact at the same relative subpath under it. -/
theorem integrate_dest_spec (fuel : Nat) (inst : DBSZInstallation) (mi : ModInfo)
    (p : Path) (rest : List (ModInfo × Path)) (fs : FsTree) :
    (mi.mod_type = ModType.ModPlugin →
      mod_dest inst mi = inst.root ++ ["Mods", mi.name])
    ∧ (mi.mod_type = ModType.Pak →
      mod_dest inst mi = inst.root ++ ["Content", "Paks", "~mods", mi.name])
    ∧ (∀ (game : Path) (mods : List (ModInfo × Path)),
        Path.parent game = some inst.root →
        integrate fuel game mods fs = integrate_loop fuel inst mods fs)
    ∧ (integrate_loop fuel inst ((mi, p) :: rest) fs =
        match copy_dir_all fuel fs p (mod_dest inst mi) with
        | none => RunResult.diverge
        | some (fs1, Except.error e) =>
          RunResult.done fs1 (Except.error (IntegrationError.IoError e))
        | some (fs1, Except.ok ()) => integrate_loop fuel inst rest fs1)
    ∧ (∀ fs', copy_dir_all fuel fs p (mod_dest inst mi) = some (fs', Except.ok ()) →
        ¬(p <+: mod_dest inst mi) → ¬(mod_dest inst mi <+: p) →
        ∀ rel d, FsTree.lookup fs (p ++ rel) = some (FsTree.file d) →
          FsTree.lookup fs' (mod_dest inst mi ++ rel) = some (FsTree.file d)) := by
  refine ⟨?_, ?_, ?_, integrate_loop_step fuel inst mi p rest fs, ?_⟩
  · intro h
    simp [mod_dest, h, DBSZInstallation.mods_path]
  · intro h
    simp [mod_dest, h, DBSZInstallation.paks_path]
  · intro game mods h
    unfold integrate DBSZInstallation.from_game_path
    rw [h]
  · intro fs' hc h1 h2 rel d hl
    exact ((copy_correct fuel).1 fs p (mod_dest inst mi) fs' hc).2 h1 h2 rel d hl

/-- Witness for C3: copying a `ModPlugin` artifact containing the file `a`
installs it at `<root>/Mods/Foo/a` with identical contents. -/
theorem integrate_dest_spec_witness :
    FsTree.lookup
      (FsTree.dir [("art", FsTree.dir [("a", FsTree.file 7)]),
        ("r", FsTree.dir [("Mods", FsTree.dir [("Foo",
          FsTree.dir [("a", FsTree.file 7)])])])])
      (["r", "Mods", "Foo"] ++ ["a"]) = some (FsTree.file 7) :=
  (integrate_dest_spec 2 { root := ["r"] }
      { provider := "p", name := "Foo", spec := { url := "u" }, versions := [],
        resolution := { url := { val := "u" }, status := ResolvableStatus.Resolvable },
        suggested_require := false, suggested_dependencies := [],
        mod_type := ModType.ModPlugin }
      ["art"] [] (FsTree.dir [("art", FsTree.dir [("a", FsTree.file 7)])])).2.2.2.2
    (FsTree.dir [("art", FsTree.dir [("a", FsTree.file 7)]),
      ("r", FsTree.dir [("Mods", FsTree.dir [("Foo",
        FsTree.dir [("a", FsTree.file 7)])])])])
    rfl (by decide) (by decide) ["a"] 7 rfl

end MintSZ
